import Mathlib

/-!
Shallow embedding of `src/services/excelService.ts` (Roster-Purifier-Name-Matcher).

Cells are the dynamic values that flow through the pipeline: after loading with
`sheet_to_json(..., raw: false, defval: null)` a cell is `null` or a display
string; `cleanRosterData` additionally writes JavaScript `Date` objects into
column index 2.  A JavaScript `Date` constructed by the code always represents
a local calendar day (midnight), so it is modelled as a (year, month, day)
triple; `month` is kept 1-based as produced by field normalisation.

Two behaviours of the host environment are kept as explicit parameters rather
than modelled:
* `np : String → Option JsDate` — the native `new Date(string)` fallback
  parser, which is implementation defined;
* `dts : JsDate → String` — `Date.prototype.toString`, used only when a
  `Date` object is coerced by `String(...)`.
All theorems are proved for every choice of these parameters.  The finite
range of JavaScript dates (`TimeClip`, ±8.64e15 ms from the epoch) is
modelled by `jsDateInRange` at year granularity: the partial boundary years
−271821 and 275760 (and the host's sub-day timezone offset there) lie over
260,000 years away from any date a claim concerns.
-/

/-- A JavaScript `Date` as used by the program: a local calendar day. -/
structure JsDate where
  year : Int
  month : Nat
  day : Nat
deriving DecidableEq

/-- A dynamically typed spreadsheet cell (`any` in the source). -/
inductive Cell where
  | null : Cell
  | str : String → Cell
  | num : Int → Cell
  | date : JsDate → Cell
deriving DecidableEq

/-- JavaScript truthiness of a cell value (`!val`, `if (truncated[2])`, ...). -/
def Cell.truthy : Cell → Bool
  | Cell.null => false
  | Cell.str s => s ≠ ""
  | Cell.num n => n ≠ 0
  | Cell.date _ => true

/-- `row[i]` in JavaScript: out-of-range access yields `undefined`, which the
program treats exactly like `null` wherever it inspects a cell. -/
def getCell (row : List Cell) (i : Nat) : Cell := (row.getD i Cell.null)

/-- `\s` of JavaScript regular expressions / `String.prototype.trim`,
restricted to the characters that can occur in the modelled data. -/
def isJsWs (c : Char) : Bool :=
  c = ' ' || c = '\t' || c = '\n' || c = '\r' ||
  c = '\x0b' || c = '\x0c' || c = ' '

/-- `String.prototype.trim` on the underlying character list. -/
def trimChars (cs : List Char) : List Char :=
  ((cs.dropWhile isJsWs).reverse.dropWhile isJsWs).reverse

/-- `String.prototype.trim`. -/
def jsTrim (s : String) : String := ⟨trimChars s.data⟩

/-- `str.toLowerCase()` (simple case mapping; the data is ASCII). -/
def jsToLower (s : String) : String := ⟨s.data.map Char.toLower⟩

/-- Digit accumulator for `parseInt`. -/
def digitsToNat (ds : List Char) : Nat :=
  ds.foldl (fun acc c => acc * 10 + (c.toNat - 48)) 0

/-- JavaScript `parseInt(s, 10)`: skip leading whitespace, optional sign,
then the maximal run of decimal digits; `NaN` (here `none`) if there is no
digit. -/
def jsParseInt (s : String) : Option Int :=
  let cs := s.data.dropWhile isJsWs
  match cs with
  | '+' :: rest =>
    let ds := rest.takeWhile Char.isDigit
    if ds.isEmpty then none else some (digitsToNat ds)
  | '-' :: rest =>
    let ds := rest.takeWhile Char.isDigit
    if ds.isEmpty then none else some (-(digitsToNat ds : Int))
  | _ =>
    let ds := cs.takeWhile Char.isDigit
    if ds.isEmpty then none else some (digitsToNat ds)

/-- Proleptic Gregorian leap year, as used by JavaScript `Date`. -/
def isLeapYear (y : Int) : Bool :=
  y.emod 4 = 0 && (y.emod 100 ≠ 0 || y.emod 400 = 0)

/-- Length of a month (1-based) in the proleptic Gregorian calendar. -/
def daysInMonth (y : Int) (m : Nat) : Nat :=
  if m = 2 then (if isLeapYear y then 29 else 28)
  else if m = 4 || m = 6 || m = 9 || m = 11 then 30 else 31

/-- Day-of-month overflow normalisation of `new Date(y, m, d)` for a positive
day count: carry whole months forward.  The fuel argument (instantiated with
`d` itself, which strictly decreases at every step) keeps the recursion
structural so that the kernel can evaluate it. -/
def normDayGo (y : Int) (m : Nat) (d : Nat) : Nat → JsDate
  | 0 => ⟨y, m, d⟩
  | fuel + 1 =>
    if d ≤ daysInMonth y m then ⟨y, m, d⟩
    else normDayGo (if m = 12 then y + 1 else y) (if m = 12 then 1 else m + 1)
      (d - daysInMonth y m) fuel

/-- Day-of-month underflow normalisation of `new Date(y, m, d)` for a
non-positive day count: borrow whole months backwards. -/
def borrowDayGo (y : Int) (m : Nat) (d : Int) : Nat → JsDate
  | 0 => ⟨y, m, 1⟩
  | fuel + 1 =>
    let y' := if m = 1 then y - 1 else y
    let m' := if m = 1 then 12 else m - 1
    let d' := d + daysInMonth y' m'
    if 0 < d' then ⟨y', m', d'.toNat⟩ else borrowDayGo y' m' d' fuel

/-- Normalise a (year, 1-based month in 1..12, arbitrary day) field triple the
way JavaScript `MakeDay` does. -/
def jsMakeDate (y : Int) (m : Nat) (d : Int) : JsDate :=
  if 0 < d then normDayGo y m d.toNat d.toNat
  else borrowDayGo y m d (d.natAbs + 1)

/-- `new Date(y, m0, d, 0, 0, 0)` with a 0-based month `m0`: two-digit years
map to 1900 + y, the month is folded into the year, then the day is
normalised.  This is the field normalisation only; whether the resulting
`Date` is valid (`isNaN(date.getTime())` at the call site) is the separate
`jsDateInRange` check below. -/
def jsNewDate (y m0 d : Int) : JsDate :=
  let yAdj := if 0 ≤ y && y ≤ 99 then 1900 + y else y
  let ym := yAdj + m0.ediv 12
  let mn := (m0.emod 12).toNat + 1
  jsMakeDate ym mn d

/-- `!isNaN(date.getTime())` for a `Date` built by `jsNewDate`: the
`TimeClip` range check of JavaScript (±8.64e15 ms, i.e. ±100,000,000 days).
Dates outside the range are Invalid (`getTime()` is `NaN`).  The clip is
modelled at year granularity — exact everywhere except inside the two
boundary years −271821 and 275760, which no claim comes near. -/
def jsDateInRange (dt : JsDate) : Bool :=
  -271821 ≤ dt.year && dt.year ≤ 275760

/-- The separator class `[\/\-]` of `parseYMD`. -/
def isDateSep (c : Char) : Bool := c = '/' || c = '-'

/-- `String.prototype.split` against a character class: segments between
separator characters, keeping empty segments. -/
def splitGo (p : Char → Bool) : List Char → List Char → List (List Char)
  | [], cur => [cur.reverse]
  | c :: t, cur => if p c then cur.reverse :: splitGo p t [] else splitGo p t (c :: cur)

/-- `s.split(regexp)` for a single-character class. -/
def jsSplit (s : String) (p : Char → Bool) : List String :=
  (splitGo p s.data []).map (fun cs => ⟨cs⟩)

/-- `String(val)` for the cell variants that reach it; `dts` models
`Date.prototype.toString`. -/
def cellToString (dts : JsDate → String) : Cell → String
  | Cell.null => "null"
  | Cell.str s => s
  | Cell.num n => toString n
  | Cell.date d => dts d

/-- The string branch of `parseYMD`: split the trimmed string on `/` or `-`;
with exactly 3 components, parse them as year / 1-based month / day, build a
local date and return it if it is valid (`!isNaN(date.getTime())`,
excelService.ts line 23); otherwise — fewer/more components, a `NaN`
component, or an out-of-range (Invalid) date — fall back to the native
parser `np`. -/
def parseYMDStr (np : String → Option JsDate) (s0 : String) : Option JsDate :=
  let str := jsTrim s0
  let parts := jsSplit str isDateSep
  match parts with
  | [p1, p2, p3] =>
    match jsParseInt p1, jsParseInt p2, jsParseInt p3 with
    | some y, some m, some d =>
      let date := jsNewDate y (m - 1) d
      if jsDateInRange date then some date else np str
    | _, _, _ => np str
  | _ => np str

/-- `parseYMD` from the source: `Date` instances pass through, falsy values
are "no date", everything else is coerced to a string and parsed. -/
def parseYMD (np : String → Option JsDate) : Cell → Option JsDate
  | Cell.date dt => some dt
  | Cell.null => none
  | Cell.str s => if s = "" then none else parseYMDStr np s
  | Cell.num n => if n = 0 then none else parseYMDStr np (toString n)

/-- `String(n).padStart(2, '0')`. -/
def pad2 (n : Nat) : String :=
  if (toString n).length < 2 then ("0") ++ toString n else toString n

/-- The `YYYY-MM` month key built from `getFullYear()` and `getMonth() + 1`. -/
def monthKey (d : JsDate) : String :=
  toString d.year ++ "-" ++ pad2 d.month

example : jsSplit (jsTrim ("2023/02/29")) isDateSep = ["2023", "02", "29"] := by decide
example : jsParseInt ("02") = some 2 := by decide
example : parseYMD (fun _ => none) (Cell.str ("2023/02/29")) = some ⟨2023, 3, 1⟩ := by decide
example : parseYMD (fun _ => none) (Cell.str ("2024/02/29")) = some ⟨2024, 2, 29⟩ := by decide
example : parseYMD (fun _ => none) (Cell.str (" 2024-13-01 ")) = some ⟨2025, 1, 1⟩ := by decide
example : parseYMD (fun _ => none) (Cell.str ("2024/03/00")) = some ⟨2024, 2, 29⟩ := by decide
example : monthKey ⟨2024, 3, 5⟩ = "2024-03" := by decide
example : parseYMD (fun _ => none) (Cell.str ("500000/01/01")) = none := by decide
example : parseYMD (fun _ => some ⟨1, 2, 3⟩) (Cell.str ("500000/01/01")) = some ⟨1, 2, 3⟩ := by decide
example : parseYMD (fun _ => none) (Cell.str ("")) = none := by rfl

/-- A loaded tab: name plus grid of cells (`RosterSheet` in `src/types.ts`). -/
structure RosterSheet where
  name : String
  data : List (List Cell)
deriving DecidableEq

/-- A raw workbook tab as decoded by the spreadsheet codec, before the
tab-name filter of `parseExcel`. -/
structure XlsxTab where
  name : String
  grid : List (List Cell)
deriving DecidableEq

/-- `file.name.toLowerCase().endsWith('.csv')`. -/
def isCsvName (fileName : String) : Bool :=
  (".csv").data.isSuffixOf (jsToLower fileName).data

/-- `/^\d{8}$/.test(name.trim())`: the trimmed tab name is exactly 8 decimal
digits. -/
def rosterTabPattern (s : String) : Bool :=
  (jsTrim s).length = 8 && (jsTrim s).data.all Char.isDigit

/-- The tab-selection logic of `parseExcel`: if the file is not a CSV and at
least one tab name matches the roster pattern, keep only matching tabs,
otherwise keep all tabs.  (Reading the bytes and converting each worksheet to
a grid is done by the external `xlsx` codec and is represented by the `grid`
field of each tab.) -/
def parseExcelTabs (fileName : String) (tabs : List XlsxTab) : List RosterSheet :=
  let isCsv := isCsvName fileName
  let hasRosterTabs := tabs.any (fun t => rosterTabPattern t.name)
  let target := if hasRosterTabs && !isCsv then tabs.filter (fun t => rosterTabPattern t.name) else tabs
  target.map (fun t => { name := t.name, data := t.grid })

/-- The month keys of the parseable dates in column index 2 of one sheet's
data rows (`index === 0` is skipped). -/
def sheetKeys (np : String → Option JsDate) (sheet : RosterSheet) : List String :=
  (sheet.data.drop 1).filterMap (fun row => (parseYMD np (getCell row 2)).map monthKey)

/-- All month keys across the workbook, in iteration order. -/
def monthKeys (np : String → Option JsDate) (sheets : List RosterSheet) : List String :=
  (sheets.map (sheetKeys np)).flatten

/-- `monthCounts[monthKey] = (monthCounts[monthKey] || 0) + 1` on a plain
object: an insertion-ordered association list, incrementing the existing
entry or appending a fresh one. -/
def bump : List (String × Nat) → String → List (String × Nat)
  | [], k => [(k, 1)]
  | (k', c) :: rest, k =>
    if k' = k then (k', c + 1) :: rest else (k', c) :: bump rest k

/-- The populated `monthCounts` object, entries in insertion order exactly as
`Object.entries` iterates them. -/
def tallyKeys (keys : List String) : List (String × Nat) :=
  keys.foldl bump []

/-- The `Object.entries(monthCounts).forEach` maximum scan: strict improvement
updates the running majority. -/
def pickMaxAux : List (String × Nat) → Nat → Option String → Nat × Option String
  | [], mx, mj => (mx, mj)
  | e :: rest, mx, mj =>
    if mx < e.2 then pickMaxAux rest e.2 (some e.1) else pickMaxAux rest mx mj

/-- `findMajorityMonth` from the source. -/
def findMajorityMonth (np : String → Option JsDate) (sheets : List RosterSheet) : Option String :=
  (pickMaxAux (tallyKeys (monthKeys np sheets)) 0 none).2

/-- `row.slice(0, 8)` followed by `while (truncated.length < 8) truncated.push(null)`. -/
def padTo8 (row : List Cell) : List Cell :=
  let t := row.take 8
  t ++ List.replicate (8 - t.length) Cell.null

/-- The month filter of `cleanRosterData` for a data row. -/
def dateOkRow (np : String → Option JsDate) (m : String) (row : List Cell) : Bool :=
  match parseYMD np (getCell row 2) with
  | none => false
  | some d => monthKey d = m

/-- The per-row finalisation of `cleanRosterData`: truncate/pad to 8 cells,
and on data rows (`rIdx > 0`) with a truthy cell 2, rewrite that cell to the
parsed `Date`. -/
def finalizeRow (np : String → Option JsDate) (rIdx : Nat) (row : List Cell) : List Cell :=
  let truncated := padTo8 row
  if 0 < rIdx && (getCell truncated 2).truthy then
    match parseYMD np (getCell truncated 2) with
    | some d => truncated.set 2 (Cell.date d)
    | none => truncated
  else truncated

/-- `Array.prototype.map` with the element index. -/
def mapIdxGo {α β : Type} (f : Nat → α → β) (i : Nat) : List α → List β
  | [] => []
  | a :: t => f i a :: mapIdxGo f (i + 1) t

/-- `Array.prototype.map((x, i) => ...)`. -/
def mapWithIdx {α β : Type} (f : Nat → α → β) (l : List α) : List β :=
  mapIdxGo f 0 l

/-- `Array.prototype.filter` with the element index. -/
def filterIdxGo {α : Type} (p : Nat → α → Bool) (i : Nat) : List α → List α
  | [] => []
  | a :: t => if p i a then a :: filterIdxGo p (i + 1) t else filterIdxGo p (i + 1) t

/-- `Array.prototype.filter((x, i) => ...)`. -/
def filterWithIdx {α : Type} (p : Nat → α → Bool) (l : List α) : List α :=
  filterIdxGo p 0 l

/-- One sheet through `cleanRosterData`: truncate to the first 72 rows, keep
the header and the data rows of the majority month, then finalise every
surviving row. -/
def cleanSheet (np : String → Option JsDate) (m : String) (sheet : RosterSheet) : RosterSheet :=
  let truncatedRows := sheet.data.take 72
  let cleanedRows := filterWithIdx (fun i row => i = 0 || dateOkRow np m row) truncatedRows
  let finalizedRows := mapWithIdx (fun rIdx row => finalizeRow np rIdx row) cleanedRows
  { sheet with data := finalizedRows }

/-- `cleanRosterData` from the source: clean every sheet, then drop sheets
left with at most the header row. -/
def cleanRosterData (np : String → Option JsDate) (sheets : List RosterSheet) (m : String) : List RosterSheet :=
  (sheets.map (cleanSheet np m)).filter (fun sh => 1 < sh.data.length)

/-- Does `needle` occur as a contiguous substring of `hay`
(`String.prototype.includes`)? -/
def hasSubList (needle : List Char) : List Char → Bool
  | [] => needle.isEmpty
  | c :: t => needle.isPrefixOf (c :: t) || hasSubList needle t

/-- `hay.includes(needle)`. -/
def containsSub (hay needle : String) : Bool := hasSubList needle.data hay.data

/-- First `)` of the lazy group `\(.*?\)`: fails if a line terminator
intervenes (`.` does not match those); on success the greedy trailing `\s*`
is consumed as well. -/
def findCloseParen : List Char → Option (List Char)
  | [] => none
  | c :: t =>
    if c = ')' then some (t.dropWhile isJsWs)
    else if c = '\n' || c = '\r' || c = ' ' || c = ' ' then none
    else findCloseParen t

/-- Attempt to match `\s*\(.*?\)\s*` at the current position, returning the
remainder of the input after the match. -/
def tryParenMatch (cs : List Char) : Option (List Char) :=
  match cs.dropWhile isJsWs with
  | '(' :: inner => findCloseParen inner
  | _ => none

/-- `str.replace(/\s*\(.*?\)\s*/g, ' ')`: scan left to right, replacing every
match by a single space.  The fuel (instantiated with the input length, which
bounds the number of steps) keeps the recursion structural. -/
def stripParensGo : Nat → List Char → List Char
  | 0, cs => cs
  | fuel + 1, cs =>
    match cs with
    | [] => []
    | c :: rest =>
      match tryParenMatch (c :: rest) with
      | some remainder => ' ' :: stripParensGo fuel remainder
      | none => c :: stripParensGo fuel rest

/-- `str.replace(/\s*\(.*?\)\s*/g, ' ')`. -/
def stripParens (s : String) : String := ⟨stripParensGo s.data.length s.data⟩

/-- The canonical staff names: column A of the staff sheet, minus blank
entries, trimmed. -/
def staffNames (dts : JsDate → String) (staffList : List (List Cell)) : List String :=
  ((((staffList.map (fun row => getCell row 0)).filter
      (fun c => c ≠ Cell.null)).map
      (fun c => jsTrim (cellToString dts c))).filter
      (fun s => s.length > 0))

/-- `newRow[i] = v` on a JavaScript array: in-range assignment replaces the
element, out-of-range assignment extends the array (holes read back as
`undefined`, i.e. `Cell.null`). -/
def setIdx (row : List Cell) (i : Nat) (v : Cell) : List Cell :=
  if i < row.length then row.set i v
  else row ++ List.replicate (i - row.length) Cell.null ++ [v]

/-- The cleaned roster name: `String(cell).trim()`, parenthesised annotations
replaced by a space, trimmed again. -/
def cleanedName (dts : JsDate → String) (c : Cell) : String :=
  jsTrim (stripParens (jsTrim (cellToString dts c)))

/-- The body of `updateNames` for one data row: clean the column-5 name and
resolve it through the ordered rules (two hardcoded aliases, then exact
case-insensitive match, then substring match, else leave the row as copied;
an alias whose textual trigger fires but whose staff lookup fails falls
through to the generic rules). -/
def resolveRow (dts : JsDate → String) (sf : List String) (row : List Cell) : List Cell :=
  let currentRosterName := getCell row 5
  if currentRosterName = Cell.null then row
  else
    let rosterNameStr := cleanedName dts currentRosterName
    let rosterNameLower := jsToLower rosterNameStr
    if rosterNameStr = "" then row
    else
      let alias1 :=
        if rosterNameLower = "clara ckm" then
          sf.find? (fun sn => containsSub (jsToLower sn) ("clara cheung ka man"))
        else none
      match alias1 with
      | some claraMatch => setIdx row 5 (Cell.str claraMatch)
      | none =>
        let alias2 :=
          if rosterNameLower = "clara cheung" then
            sf.find? (fun sn => containsSub (jsToLower sn) ("clara cheung wing kum"))
          else none
        match alias2 with
        | some claraWingMatch => setIdx row 5 (Cell.str claraWingMatch)
        | none =>
          match sf.find? (fun sn => jsToLower sn = rosterNameLower) with
          | some exactMatch => setIdx row 5 (Cell.str exactMatch)
          | none =>
            match sf.find? (fun sn => containsSub (jsToLower sn) rosterNameLower) with
            | some partialMatch => setIdx row 5 (Cell.str partialMatch)
            | none => row

/-- `updateNames` from the source: rewrite column 5 of every data row of every
sheet against the staff list (header rows pass through unchanged). -/
def updateNames (dts : JsDate → String) (rosterSheets : List RosterSheet)
    (staffList : List (List Cell)) : List RosterSheet :=
  let sf := staffNames dts staffList
  rosterSheets.map (fun sheet =>
    { sheet with
      data := mapWithIdx (fun rIdx row => if rIdx = 0 then row else resolveRow dts sf row) sheet.data })

/-- A fallback parser that always fails; used to instantiate the native-parser
parameter in concrete computations (none of them reach the fallback). -/
def noNative : String → Option JsDate := fun _ => none

/-- An arbitrary instantiation of `Date.prototype.toString`; concrete
computations never coerce a `Date` cell to a string. -/
def plainDts : JsDate → String := fun _ => ""

example : stripParens ("J. Smith (am)") = "J. Smith " := by decide
example : jsTrim (stripParens (jsTrim ("J. Smith (am)"))) = "J. Smith" := by decide
example : stripParens ("(a) (b)") = "  " := by decide
example : stripParens ("a (b c) d") = "a d" := by decide
example : containsSub ("jane smith") "j. smith" = false := by decide
example : containsSub ("clara cheung wing kum") "clara cheung" = true := by decide

example :
    findMajorityMonth noNative
      [⟨"20240301", [[], [Cell.null, Cell.null, Cell.str ("2024/03/01")],
        [Cell.null, Cell.null, Cell.str ("2024/04/02")],
        [Cell.null, Cell.null, Cell.str ("2024/03/09")]]⟩] = some ("2024-03") := by decide

example :
    (cleanRosterData noNative
      [⟨"t", [[Cell.str ("h")], [Cell.null, Cell.null, Cell.str ("2024/03/01"), Cell.str ("x")],
        [Cell.null, Cell.null, Cell.str ("2024/04/02")]]⟩] ("2024-03")).map
        (fun sh => sh.data) =
      [[[Cell.str ("h"), Cell.null, Cell.null, Cell.null, Cell.null, Cell.null, Cell.null, Cell.null],
        [Cell.null, Cell.null, Cell.date ⟨2024, 3, 1⟩, Cell.str ("x"), Cell.null, Cell.null, Cell.null, Cell.null]]] := by decide

example :
    (updateNames plainDts
      [⟨"t", [[], [Cell.null, Cell.null, Cell.null, Cell.null, Cell.null, Cell.str ("Clara CKM")]]⟩]
      [[Cell.str (" Clara Cheung Ka Man (RN) ")]]).map (fun sh => sh.data) =
      [[[], [Cell.null, Cell.null, Cell.null, Cell.null, Cell.null, Cell.str ("Clara Cheung Ka Man (RN)")]]] := by decide

/-! ## Generic helper lemmas -/

theorem length_mapIdxGo {α β : Type} (f : Nat → α → β) :
    ∀ (l : List α) (i : Nat), (mapIdxGo f i l).length = l.length := by
  intro l
  induction l with
  | nil => intro i; rfl
  | cons a t ih => intro i; simp [mapIdxGo, ih]

theorem getElem?_mapIdxGo {α β : Type} (f : Nat → α → β) :
    ∀ (l : List α) (i r : Nat), (mapIdxGo f i l)[r]? = (l[r]?).map (f (i + r)) := by
  intro l
  induction l with
  | nil => intro i r; rfl
  | cons a t ih =>
    intro i r
    cases r with
    | zero => simp [mapIdxGo]
    | succ r' =>
      have h : i + (r' + 1) = (i + 1) + r' := by omega
      simp [mapIdxGo, ih (i + 1) r', h]

theorem mem_mapIdxGo {α β : Type} (f : Nat → α → β) :
    ∀ {l : List α} {i : Nat} {b : β}, b ∈ mapIdxGo f i l → ∃ j a, a ∈ l ∧ b = f j a := by
  intro l
  induction l with
  | nil => intro i b h; cases h
  | cons a t ih =>
    intro i b h
    rcases h with _ | ⟨_, h⟩
    · exact ⟨i, a, List.mem_cons_self a t, rfl⟩
    · obtain ⟨j, a', ha', hb⟩ := ih h
      exact ⟨j, a', List.mem_cons_of_mem a ha', hb⟩

theorem mapIdxGo_eq_map {α β : Type} (f : Nat → α → β) (g : α → β)
    (h : ∀ j a, 0 < j → f j a = g a) :
    ∀ (l : List α) (i : Nat), 0 < i → mapIdxGo f i l = l.map g := by
  intro l
  induction l with
  | nil => intro i _; rfl
  | cons a t ih =>
    intro i hi
    simp [mapIdxGo, h i a hi, ih (i + 1) (Nat.succ_pos i)]

theorem length_filterIdxGo_le {α : Type} (p : Nat → α → Bool) :
    ∀ (l : List α) (i : Nat), (filterIdxGo p i l).length ≤ l.length := by
  intro l
  induction l with
  | nil => intro i; exact Nat.le_refl 0
  | cons a t ih =>
    intro i
    simp only [filterIdxGo]
    by_cases hp : p i a = true
    · simpa [hp] using Nat.succ_le_succ (ih (i + 1))
    · simp only [hp, if_false, List.length_cons]
      exact Nat.le_succ_of_le (ih (i + 1))

theorem filterIdxGo_eq_filter {α : Type} (p : Nat → α → Bool) (q : α → Bool)
    (h : ∀ j a, 0 < j → p j a = q a) :
    ∀ (l : List α) (i : Nat), 0 < i → filterIdxGo p i l = l.filter q := by
  intro l
  induction l with
  | nil => intro i _; rfl
  | cons a t ih =>
    intro i hi
    simp only [filterIdxGo, h i a hi, List.filter_cons]
    cases hq : q a <;> simp [hq, ih (i + 1) (Nat.succ_pos i)]

/-! ## C7: tab retention policy of `parseExcel` -/

/-- **C7** (confirmed).  `parseExcel` retains exactly the tabs whose trimmed
name is 8 digits iff the file is not a CSV and some tab name matches that
pattern; otherwise (CSV, or no tab matches) all tabs are retained. -/
theorem claim_C7_theorem (fileName : String) (tabs : List XlsxTab) :
    (isCsvName fileName = false → (∃ t ∈ tabs, rosterTabPattern t.name = true) →
      parseExcelTabs fileName tabs =
        (tabs.filter (fun t => rosterTabPattern t.name)).map
          (fun t => { name := t.name, data := t.grid })) ∧
    ((isCsvName fileName = true ∨ ∀ t ∈ tabs, rosterTabPattern t.name = false) →
      parseExcelTabs fileName tabs = tabs.map (fun t => { name := t.name, data := t.grid })) := by
  constructor
  · intro hcsv hex
    have hany : tabs.any (fun t => rosterTabPattern t.name) = true :=
      List.any_eq_true.mpr hex
    simp [parseExcelTabs, hany, hcsv]
  · intro h
    rcases h with hcsv | hnone
    · simp [parseExcelTabs, hcsv]
    · have hany : tabs.any (fun t => rosterTabPattern t.name) = false := by
        rw [Bool.eq_false_iff]
        intro hc
        obtain ⟨t, ht, hp⟩ := List.any_eq_true.mp hc
        exact absurd hp (by simp [hnone t ht])
      simp [parseExcelTabs, hany]

/-- Witness for C7 at a concrete workbook. -/
theorem claim_C7_witness :
    parseExcelTabs ("roster.xlsx") [⟨"20240301", []⟩, ⟨"Notes", []⟩] =
      [{ name := "20240301", data := [] }] := by
  have h := (claim_C7_theorem ("roster.xlsx") [⟨"20240301", []⟩, ⟨"Notes", []⟩]).1
    (by decide) (by decide)
  rw [h]
  rfl

/-! ## Structure of `cleanRosterData` -/

theorem padTo8_length (r : List Cell) : (padTo8 r).length = 8 := by
  have h := List.length_take_le 8 r
  simp only [padTo8, List.length_append, List.length_replicate]
  omega

theorem getCell_padTo8_two (r : List Cell) : getCell (padTo8 r) 2 = getCell r 2 := by
  unfold padTo8 getCell
  rcases r with _ | ⟨a, r⟩
  · simp [List.getD]
  rcases r with _ | ⟨b, r⟩
  · simp [List.getD]
  rcases r with _ | ⟨c, r⟩
  · simp [List.getD]
  simp [List.getD, List.take_succ_cons]

theorem finalizeRow_zero (np : String → Option JsDate) (r : List Cell) :
    finalizeRow np 0 r = padTo8 r := by
  simp [finalizeRow]

theorem finalizeRow_pos (np : String → Option JsDate) (j : Nat) (r : List Cell)
    (hj : 0 < j) : finalizeRow np j r = finalizeRow np 1 r := by
  simp [finalizeRow, hj]

theorem finalizeRow_length (np : String → Option JsDate) (j : Nat) (r : List Cell) :
    (finalizeRow np j r).length = 8 := by
  simp only [finalizeRow]
  split
  · split
    · simp [List.length_set, padTo8_length]
    · exact padTo8_length r
  · exact padTo8_length r

theorem parseYMD_some_truthy (np : String → Option JsDate) (c : Cell) (d : JsDate)
    (h : parseYMD np c = some d) : c.truthy = true := by
  cases c with
  | null => simp [parseYMD] at h
  | date _ => rfl
  | str s =>
    by_cases hs : s = ""
    · subst hs; simp [parseYMD] at h
    · simp [Cell.truthy, hs]
  | num n =>
    by_cases hn : n = 0
    · subst hn; simp [parseYMD] at h
    · simp [Cell.truthy, hn]

theorem dateOkRow_iff (np : String → Option JsDate) (m : String) (r : List Cell) :
    dateOkRow np m r = true ↔
      ∃ d, parseYMD np (getCell r 2) = some d ∧ monthKey d = m := by
  unfold dateOkRow
  cases h : parseYMD np (getCell r 2) with
  | none => simp
  | some d => simp [h]

theorem finalizeRow_of_parse (np : String → Option JsDate) (r : List Cell) (d : JsDate)
    (h : parseYMD np (getCell r 2) = some d) :
    finalizeRow np 1 r = (padTo8 r).set 2 (Cell.date d) := by
  simp only [finalizeRow]
  rw [if_pos]
  · rw [getCell_padTo8_two, h]
  · rw [getCell_padTo8_two, parseYMD_some_truthy np _ d h]
    rfl

theorem cleanSheet_data_nil (np : String → Option JsDate) (m : String) (s : RosterSheet)
    (htake : s.data.take 72 = []) : (cleanSheet np m s).data = [] := by
  simp [cleanSheet, htake, filterWithIdx, filterIdxGo, mapWithIdx, mapIdxGo]

theorem cleanSheet_data_cons (np : String → Option JsDate) (m : String) (s : RosterSheet)
    (h : List Cell) (t : List (List Cell)) (htake : s.data.take 72 = h :: t) :
    (cleanSheet np m s).data =
      padTo8 h :: ((t.filter (dateOkRow np m)).map (fun r => finalizeRow np 1 r)) := by
  unfold cleanSheet filterWithIdx mapWithIdx
  rw [htake]
  simp only [filterIdxGo]
  rw [if_pos (by simp)]
  rw [filterIdxGo_eq_filter _ (dateOkRow np m)
    (by intro j a hj; simp [Nat.pos_iff_ne_zero.mp hj]) t 1 Nat.one_pos]
  simp only [mapIdxGo]
  rw [mapIdxGo_eq_map _ (fun r => finalizeRow np 1 r)
    (fun j a hj => finalizeRow_pos np j a hj) _ 1 Nat.one_pos]
  rw [finalizeRow_zero]

theorem cleanSheet_length_le (np : String → Option JsDate) (m : String) (s : RosterSheet) :
    (cleanSheet np m s).data.length ≤ 72 := by
  have h1 : (cleanSheet np m s).data.length =
      (filterIdxGo (fun i row => i = 0 || dateOkRow np m row) 0 (s.data.take 72)).length := by
    simp [cleanSheet, mapWithIdx, filterWithIdx, length_mapIdxGo]
  rw [h1]
  calc (filterIdxGo (fun i row => i = 0 || dateOkRow np m row) 0 (s.data.take 72)).length
      ≤ (s.data.take 72).length := length_filterIdxGo_le _ _ _
    _ ≤ 72 := List.length_take_le 72 s.data

theorem headD_of_take_cons (l : List (List Cell)) (n : Nat) (h : List Cell)
    (t : List (List Cell)) (htake : l.take n = h :: t) : l.headD [] = h := by
  cases l with
  | nil => simp at htake
  | cons a rest =>
    cases n with
    | zero => simp at htake
    | succ n' =>
      rw [List.take_succ_cons] at htake
      injection htake

theorem mem_cleanRosterData (np : String → Option JsDate) (sheets : List RosterSheet)
    (m : String) (sh : RosterSheet) (hsh : sh ∈ cleanRosterData np sheets m) :
    (∃ s ∈ sheets, sh = cleanSheet np m s) ∧ 1 < sh.data.length := by
  unfold cleanRosterData at hsh
  have h1 := List.mem_filter.mp hsh
  obtain ⟨s, hs, hmap⟩ := List.mem_map.mp h1.1
  refine ⟨⟨s, hs, hmap.symm⟩, ?_⟩
  have := h1.2
  simpa using this

/-! ## C4, C8, C9: `cleanRosterData` -/

/-- **C4** (confirmed).  `cleanRosterData` truncates every sheet to its first
72 rows (header + at most 71 data rows) before the month filter: every output
sheet has at most 72 rows, and the result is unchanged if every input sheet
is first cut down to its first 72 rows — so rows at index 72 and beyond can
never appear in the output, whatever their date. -/
theorem claim_C4_theorem (np : String → Option JsDate) (m : String)
    (sheets : List RosterSheet) :
    (∀ sh ∈ cleanRosterData np sheets m, sh.data.length ≤ 72) ∧
    cleanRosterData np sheets m =
      cleanRosterData np (sheets.map (fun s => { s with data := s.data.take 72 })) m := by
  constructor
  · intro sh hsh
    obtain ⟨⟨s, _, rfl⟩, _⟩ := mem_cleanRosterData np sheets m sh hsh
    exact cleanSheet_length_le np m s
  · unfold cleanRosterData
    rw [List.map_map]
    have : ∀ s ∈ sheets,
        (cleanSheet np m ∘ fun s => ({ s with data := s.data.take 72 } : RosterSheet)) s =
          cleanSheet np m s := by
      intro s _
      simp [cleanSheet, List.take_take]
    rw [List.map_congr_left this]

/-- Witness for C4: a concrete cleaned sheet obeys the 72-row bound. -/
theorem claim_C4_witness :
    (⟨"t", [[Cell.null, Cell.null, Cell.null, Cell.null, Cell.null, Cell.null, Cell.null, Cell.null],
      [Cell.null, Cell.null, Cell.date ⟨2024, 3, 5⟩, Cell.null, Cell.null, Cell.null, Cell.null, Cell.null]]⟩ : RosterSheet).data.length ≤ 72 :=
  (claim_C4_theorem noNative ("2024-03")
      [⟨"t", [[], [Cell.null, Cell.null, Cell.str ("2024/03/05")]]⟩]).1 _ (by decide)

/-- **C8** (confirmed).  Every row of every sheet returned by
`cleanRosterData` has exactly 8 cells (longer rows are truncated to positions
0–7, shorter rows padded with `null`). -/
theorem claim_C8_theorem (np : String → Option JsDate) (m : String)
    (sheets : List RosterSheet) :
    ∀ sh ∈ cleanRosterData np sheets m, ∀ row ∈ sh.data, row.length = 8 := by
  intro sh hsh row hrow
  obtain ⟨⟨s, _, rfl⟩, _⟩ := mem_cleanRosterData np sheets m sh hsh
  have hrow' : row ∈ mapIdxGo (fun rIdx r => finalizeRow np rIdx r) 0
      (filterWithIdx (fun i r => i = 0 || dateOkRow np m r) (s.data.take 72)) := by
    simpa [cleanSheet, mapWithIdx] using hrow
  obtain ⟨j, a, _, rfl⟩ := mem_mapIdxGo _ hrow'
  exact finalizeRow_length np j a

/-- Witness for C8 at a concrete workbook. -/
theorem claim_C8_witness :
    ([Cell.null, Cell.null, Cell.date ⟨2024, 3, 5⟩, Cell.null, Cell.null, Cell.null, Cell.null, Cell.null] : List Cell).length = 8 :=
  claim_C8_theorem noNative ("2024-03")
    [⟨"t", [[], [Cell.null, Cell.null, Cell.str ("2024/03/05")]]⟩]
    (⟨"t", [[Cell.null, Cell.null, Cell.null, Cell.null, Cell.null, Cell.null, Cell.null, Cell.null], [Cell.null, Cell.null, Cell.date ⟨2024, 3, 5⟩, Cell.null, Cell.null, Cell.null, Cell.null, Cell.null]]⟩ : RosterSheet) (by decide) ([Cell.null, Cell.null, Cell.date ⟨2024, 3, 5⟩, Cell.null, Cell.null, Cell.null, Cell.null, Cell.null]) (by decide)

/-- **C9** (confirmed).  In `cleanRosterData`'s output: every data row's
position-2 cell is a `Date` value of the target month key (never a raw
string); the header row's position-2 cell is whatever the input header held
there, not rewritten; and a sheet left with no data rows is absent. -/
theorem claim_C9_theorem (np : String → Option JsDate) (m : String)
    (sheets : List RosterSheet) :
    (∀ sh ∈ cleanRosterData np sheets m, 1 < sh.data.length) ∧
    (∀ sh ∈ cleanRosterData np sheets m, ∀ row ∈ sh.data.drop 1,
      ∃ d, getCell row 2 = Cell.date d ∧ monthKey d = m) ∧
    (∀ sh ∈ cleanRosterData np sheets m, ∃ s ∈ sheets, sh.name = s.name ∧
      getCell (sh.data.headD []) 2 = getCell (s.data.headD []) 2) := by
  refine ⟨?_, ?_, ?_⟩
  · intro sh hsh
    exact (mem_cleanRosterData np sheets m sh hsh).2
  · intro sh hsh row hrow
    obtain ⟨⟨s, _, rfl⟩, hlen⟩ := mem_cleanRosterData np sheets m sh hsh
    cases htake : s.data.take 72 with
    | nil =>
      rw [cleanSheet_data_nil np m s htake] at hlen
      simp at hlen
    | cons h t =>
      rw [cleanSheet_data_cons np m s h t htake] at hrow
      simp only [List.drop_succ_cons, List.drop_zero] at hrow
      obtain ⟨r, hr, rfl⟩ := List.mem_map.mp hrow
      have hok := (List.mem_filter.mp hr).2
      obtain ⟨d, hd, hkey⟩ := (dateOkRow_iff np m r).mp hok
      refine ⟨d, ?_, hkey⟩
      rw [finalizeRow_of_parse np r d hd]
      unfold getCell
      rw [List.getD_eq_getElem?_getD, List.getElem?_set]
      simp [padTo8_length]
  · intro sh hsh
    obtain ⟨⟨s, hs, rfl⟩, hlen⟩ := mem_cleanRosterData np sheets m sh hsh
    refine ⟨s, hs, rfl, ?_⟩
    cases htake : s.data.take 72 with
    | nil =>
      rw [cleanSheet_data_nil np m s htake] at hlen
      simp at hlen
    | cons h t =>
      rw [cleanSheet_data_cons np m s h t htake]
      rw [headD_of_take_cons s.data 72 h t htake]
      simpa using getCell_padTo8_two h
  
/-- Witness for C9: the concrete surviving data row carries a `Date` of the
majority month. -/
theorem claim_C9_witness :
    ∃ d, getCell [Cell.null, Cell.null, Cell.date ⟨2024, 3, 5⟩, Cell.null, Cell.null, Cell.null, Cell.null, Cell.null] 2 = Cell.date d ∧
      monthKey d = "2024-03" :=
  (claim_C9_theorem noNative ("2024-03")
      [⟨"t", [[], [Cell.null, Cell.null, Cell.str ("2024/03/05")]]⟩]).2.1
    (⟨"t", [[Cell.null, Cell.null, Cell.null, Cell.null, Cell.null, Cell.null, Cell.null, Cell.null], [Cell.null, Cell.null, Cell.date ⟨2024, 3, 5⟩, Cell.null, Cell.null, Cell.null, Cell.null, Cell.null]]⟩ : RosterSheet) (by decide) ([Cell.null, Cell.null, Cell.date ⟨2024, 3, 5⟩, Cell.null, Cell.null, Cell.null, Cell.null, Cell.null]) (by decide)

/-! ## Structure of `updateNames` -/

theorem getCell_ne_null_lt (row : List Cell) (i : Nat) (h : getCell row i ≠ Cell.null) :
    i < row.length := by
  by_contra hlt
  have hnone : row[i]? = none := List.getElem?_eq_none (Nat.le_of_not_lt hlt)
  apply h
  unfold getCell
  rw [List.getD_eq_getElem?_getD, hnone]
  rfl

theorem setIdx_of_lt (row : List Cell) (i : Nat) (v : Cell) (h : i < row.length) :
    setIdx row i v = row.set i v := by
  simp [setIdx, h]

theorem resolveRow_cases (dts : JsDate → String) (sf : List String) (row : List Cell) :
    resolveRow dts sf row = row ∨
    (getCell row 5 ≠ Cell.null ∧ ∃ v, resolveRow dts sf row = setIdx row 5 (Cell.str v)) := by
  by_cases h5 : getCell row 5 = Cell.null
  · left
    simp [resolveRow, h5]
  · simp only [resolveRow, if_neg h5]
    split
    · exact Or.inl rfl
    · split
      next v heq => exact Or.inr ⟨h5, v, rfl⟩
      next heq =>
        split
        next v heq2 => exact Or.inr ⟨h5, v, rfl⟩
        next heq2 =>
          split
          next v heq3 => exact Or.inr ⟨h5, v, rfl⟩
          next heq3 =>
            split
            next v heq4 => exact Or.inr ⟨h5, v, rfl⟩
            next heq4 => exact Or.inl rfl

theorem resolveRow_frame (dts : JsDate → String) (sf : List String) (row : List Cell) :
    (resolveRow dts sf row).length = row.length ∧
    (∀ j, j ≠ 5 → (resolveRow dts sf row)[j]? = row[j]?) ∧
    (getCell row 5 = Cell.null → resolveRow dts sf row = row) := by
  rcases resolveRow_cases dts sf row with h | ⟨h5, v, h⟩
  · rw [h]
    exact ⟨rfl, fun _ _ => rfl, fun _ => rfl⟩
  · have hlt : 5 < row.length := getCell_ne_null_lt row 5 h5
    rw [h, setIdx_of_lt row 5 _ hlt]
    refine ⟨List.length_set row 5 _, ?_, fun hnull => absurd hnull h5⟩
    intro j hj
    exact List.getElem?_set_ne (Ne.symm hj)

theorem updateNames_sheet_data (dts : JsDate → String) (sf : List String)
    (data : List (List Cell)) :
    mapWithIdx (fun rIdx row => if rIdx = 0 then row else resolveRow dts sf row) data =
      match data with
      | [] => []
      | h :: t => h :: t.map (resolveRow dts sf) := by
  cases data with
  | nil => rfl
  | cons h t =>
    simp only [mapWithIdx, mapIdxGo]
    rw [mapIdxGo_eq_map _ (resolveRow dts sf)
      (by intro j a hj; simp [Nat.pos_iff_ne_zero.mp hj]) t 1 Nat.one_pos]
    simp

theorem updateNames_row (dts : JsDate → String) (sheets : List RosterSheet)
    (staff : List (List Cell)) (i r : Nat) (sh : RosterSheet) (row : List Cell)
    (hi : sheets[i]? = some sh) (hr : 0 < r) (hrow : sh.data[r]? = some row) :
    ∃ sh', (updateNames dts sheets staff)[i]? = some sh' ∧
      sh'.data[r]? = some (resolveRow dts (staffNames dts staff) row) := by
  unfold updateNames
  rw [List.getElem?_map, hi]
  refine ⟨_, rfl, ?_⟩
  show (mapWithIdx (fun rIdx row => if rIdx = 0 then row else resolveRow dts (staffNames dts staff) row) sh.data)[r]? =
    some (resolveRow dts (staffNames dts staff) row)
  rw [updateNames_sheet_data]
  obtain ⟨r', rfl⟩ : ∃ r', r = r' + 1 := ⟨r - 1, by omega⟩
  cases hdata : sh.data with
  | nil => rw [hdata] at hrow; simp at hrow
  | cons h t =>
    rw [hdata] at hrow
    rw [List.getElem?_cons_succ] at hrow
    simp only [List.getElem?_cons_succ, List.getElem?_map, hrow, Option.map_some']

theorem resolveRow_alias1 (dts : JsDate → String) (sf : List String) (row : List Cell)
    (hnn : getCell row 5 ≠ Cell.null)
    (htrig : jsToLower (cleanedName dts (getCell row 5)) = "clara ckm")
    (tgt : String)
    (hfind : sf.find? (fun sn => containsSub (jsToLower sn) ("clara cheung ka man")) = some tgt) :
    resolveRow dts sf row = setIdx row 5 (Cell.str tgt) := by
  have hne : cleanedName dts (getCell row 5) ≠ "" := by
    intro heq
    rw [heq] at htrig
    exact absurd htrig (by decide)
  simp only [resolveRow, if_neg hnn, if_neg hne, if_pos htrig, hfind]

theorem resolveRow_after_alias (dts : JsDate → String) (sf : List String) (row : List Cell)
    (hnn : getCell row 5 ≠ Cell.null)
    (hne : cleanedName dts (getCell row 5) ≠ "")
    (ha1 : (if jsToLower (cleanedName dts (getCell row 5)) = "clara ckm" then
        sf.find? (fun sn => containsSub (jsToLower sn) ("clara cheung ka man")) else none) = none)
    (ha2 : (if jsToLower (cleanedName dts (getCell row 5)) = "clara cheung" then
        sf.find? (fun sn => containsSub (jsToLower sn) ("clara cheung wing kum")) else none) = none) :
    resolveRow dts sf row =
      match sf.find? (fun sn => jsToLower sn = jsToLower (cleanedName dts (getCell row 5))) with
      | some e => setIdx row 5 (Cell.str e)
      | none =>
        match sf.find? (fun sn => containsSub (jsToLower sn) (jsToLower (cleanedName dts (getCell row 5)))) with
        | some p => setIdx row 5 (Cell.str p)
        | none => row := by
  simp only [resolveRow, if_neg hnn, if_neg hne, ha1, ha2]

/-! ## C10: frame property of `updateNames` -/

/-- **C10** (confirmed).  `updateNames` changes at most the index-5 cell of
data rows: sheet count, names and order, per-sheet row counts, row 0, all
cells at indices other than 5, and rows whose index-5 cell is null/undefined
are all preserved. -/
theorem claim_C10_theorem (dts : JsDate → String) (sheets : List RosterSheet)
    (staff : List (List Cell)) :
    (updateNames dts sheets staff).length = sheets.length ∧
    (∀ (i : Nat) (sh sh' : RosterSheet), sheets[i]? = some sh → (updateNames dts sheets staff)[i]? = some sh' →
      sh'.name = sh.name ∧ sh'.data.length = sh.data.length ∧
      sh'.data[0]? = sh.data[0]? ∧
      (∀ (r : Nat) (row row' : List Cell), sh.data[r]? = some row → sh'.data[r]? = some row' →
        row'.length = row.length ∧ (∀ j, j ≠ 5 → row'[j]? = row[j]?) ∧
        (getCell row 5 = Cell.null → row' = row))) := by
  constructor
  · simp [updateNames]
  · intro i sh sh' hi hi'
    unfold updateNames at hi'
    rw [List.getElem?_map, hi, Option.map_some'] at hi'
    injection hi' with hsh'
    subst hsh'
    refine ⟨rfl, ?_, ?_, ?_⟩
    · show (mapWithIdx _ sh.data).length = sh.data.length
      rw [updateNames_sheet_data]
      cases sh.data <;> simp
    · show (mapWithIdx _ sh.data)[0]? = sh.data[0]?
      rw [updateNames_sheet_data]
      cases sh.data <;> simp
    · intro r row row' hrow hrow'
      replace hrow' : (mapWithIdx (fun rIdx row => if rIdx = 0 then row else
          resolveRow dts (staffNames dts staff) row) sh.data)[r]? = some row' := hrow'
      rw [updateNames_sheet_data] at hrow'
      cases hdata : sh.data with
      | nil => rw [hdata] at hrow; simp at hrow
      | cons h t =>
        rw [hdata] at hrow hrow'
        cases r with
        | zero =>
          rw [List.getElem?_cons_zero] at hrow hrow'
          injection hrow with hrow
          injection hrow' with hrow'
          subst hrow; subst hrow'
          exact ⟨rfl, fun _ _ => rfl, fun _ => rfl⟩
        | succ r' =>
          rw [List.getElem?_cons_succ] at hrow hrow'
          rw [List.getElem?_map, hrow, Option.map_some'] at hrow'
          injection hrow' with hrow'
          subst hrow'
          exact resolveRow_frame dts (staffNames dts staff) row

/-- Witness for C10: a rewritten data row keeps its cell at index 0. -/
theorem claim_C10_witness :
    ([Cell.str ("x"), Cell.null, Cell.null, Cell.null, Cell.null, Cell.str ("Bobby")] : List Cell)[0]? =
      ([Cell.str ("x"), Cell.null, Cell.null, Cell.null, Cell.null, Cell.str ("Bob")] : List Cell)[0]? :=
  ((claim_C10_theorem plainDts
      [⟨"t", [[], [Cell.str ("x"), Cell.null, Cell.null, Cell.null, Cell.null, Cell.str ("Bob")]]⟩]
      [[Cell.str ("Bobby")]]).2 0 (⟨"t", [[], [Cell.str ("x"), Cell.null, Cell.null, Cell.null, Cell.null, Cell.str ("Bob")]]⟩ : RosterSheet) (⟨"t", [[], [Cell.str ("x"), Cell.null, Cell.null, Cell.null, Cell.null, Cell.str ("Bobby")]]⟩ : RosterSheet) (by decide) (by decide)).2.2.2 1
    ([Cell.str ("x"), Cell.null, Cell.null, Cell.null, Cell.null, Cell.str ("Bob")]) ([Cell.str ("x"), Cell.null, Cell.null, Cell.null, Cell.null, Cell.str ("Bobby")])
    (by decide) (by decide) |>.2.1 0 (by decide)

/-! ## C2: unmatched names -/

/-- **C2** (corrected: counterexample).  With staff list `["Alice Wong"]` the
roster name `"J. Smith (am)"` matches nothing; the claim says the cell
becomes the cleaned string `"J. Smith"`, but the code leaves the original raw
value `"J. Smith (am)"` in place (the cleaned string is only a local
variable). -/
theorem claim_C2_counterexample :
    (updateNames plainDts
        [⟨"t", [[], [Cell.null, Cell.null, Cell.null, Cell.null, Cell.null, Cell.str ("J. Smith (am)")]]⟩]
        [[Cell.str ("Alice Wong")]]).map (fun sh => sh.data) =
      [[[], [Cell.null, Cell.null, Cell.null, Cell.null, Cell.null, Cell.str ("J. Smith (am)")]]] ∧
    cleanedName plainDts (Cell.str ("J. Smith (am)")) = "J. Smith" ∧
    Cell.str ("J. Smith (am)") ≠ Cell.str ("J. Smith") := by
  exact ⟨by decide, by decide, by decide⟩

/-- **C2** (corrected).  Amended claim: when the cleaned
(parenthesis-stripped) value of a data-row name cell is non-empty but fires
no alias rule, matches no staff name exactly (case-insensitively) and is a
substring of no staff name, the row — including its name cell — is returned
**unchanged with the original raw value** (the cleaned string is not written
back). -/
theorem claim_C2_theorem (dts : JsDate → String) (sheets : List RosterSheet)
    (staff : List (List Cell)) (i r : Nat) (sh : RosterSheet) (row : List Cell)
    (hi : sheets[i]? = some sh) (hr : 0 < r) (hrow : sh.data[r]? = some row)
    (hnn : getCell row 5 ≠ Cell.null)
    (hne : cleanedName dts (getCell row 5) ≠ "")
    (ha1 : ¬(jsToLower (cleanedName dts (getCell row 5)) = "clara ckm" ∧
      ((staffNames dts staff).find? (fun sn => containsSub (jsToLower sn) ("clara cheung ka man"))).isSome = true))
    (ha2 : ¬(jsToLower (cleanedName dts (getCell row 5)) = "clara cheung" ∧
      ((staffNames dts staff).find? (fun sn => containsSub (jsToLower sn) ("clara cheung wing kum"))).isSome = true))
    (hex : (staffNames dts staff).find?
      (fun sn => jsToLower sn = jsToLower (cleanedName dts (getCell row 5))) = none)
    (hsub : (staffNames dts staff).find?
      (fun sn => containsSub (jsToLower sn) (jsToLower (cleanedName dts (getCell row 5)))) = none) :
    ∃ sh', (updateNames dts sheets staff)[i]? = some sh' ∧ sh'.data[r]? = some row := by
  obtain ⟨sh', hsh', hdata⟩ := updateNames_row dts sheets staff i r sh row hi hr hrow
  refine ⟨sh', hsh', ?_⟩
  rw [hdata]
  have ha1' : (if jsToLower (cleanedName dts (getCell row 5)) = "clara ckm" then
      (staffNames dts staff).find? (fun sn => containsSub (jsToLower sn) ("clara cheung ka man"))
      else none) = none := by
    by_cases ht : jsToLower (cleanedName dts (getCell row 5)) = "clara ckm"
    · rw [if_pos ht]
      cases hf : (staffNames dts staff).find?
          (fun sn => containsSub (jsToLower sn) ("clara cheung ka man")) with
      | none => rfl
      | some v => exact absurd ⟨ht, by rw [hf]; rfl⟩ ha1
    · rw [if_neg ht]
  have ha2' : (if jsToLower (cleanedName dts (getCell row 5)) = "clara cheung" then
      (staffNames dts staff).find? (fun sn => containsSub (jsToLower sn) ("clara cheung wing kum"))
      else none) = none := by
    by_cases ht : jsToLower (cleanedName dts (getCell row 5)) = "clara cheung"
    · rw [if_pos ht]
      cases hf : (staffNames dts staff).find?
          (fun sn => containsSub (jsToLower sn) ("clara cheung wing kum")) with
      | none => rfl
      | some v => exact absurd ⟨ht, by rw [hf]; rfl⟩ ha2
    · rw [if_neg ht]
  rw [resolveRow_after_alias dts (staffNames dts staff) row hnn hne ha1' ha2', hex, hsub]

/-- Witness for C2's amended theorem at the counterexample input. -/
theorem claim_C2_witness :
    ∃ sh', (updateNames plainDts
        [⟨"t", [[], [Cell.null, Cell.null, Cell.null, Cell.null, Cell.null, Cell.str ("J. Smith (am)")]]⟩]
        [[Cell.str ("Alice Wong")]])[0]? = some sh' ∧
      sh'.data[1]? = some [Cell.null, Cell.null, Cell.null, Cell.null, Cell.null, Cell.str ("J. Smith (am)")] :=
  claim_C2_theorem plainDts
    [⟨"t", [[], [Cell.null, Cell.null, Cell.null, Cell.null, Cell.null, Cell.str ("J. Smith (am)")]]⟩]
    [[Cell.str ("Alice Wong")]] 0 1 (⟨"t", [[], [Cell.null, Cell.null, Cell.null, Cell.null, Cell.null, Cell.str ("J. Smith (am)")]]⟩ : RosterSheet) ([Cell.null, Cell.null, Cell.null, Cell.null, Cell.null, Cell.str ("J. Smith (am)")]) (by decide) (by decide) (by decide)
    (by decide) (by decide) (by decide) (by decide) (by decide) (by decide)

/-! ## C5: exact-match precedence -/

/-- **C5** (corrected: counterexample).  The cleaned name `"Clara Cheung"`
has the exact case-insensitive staff match `"Clara Cheung"`, but the
hardcoded alias fires first and rewrites the cell to the earlier entry
`"Clara Cheung Wing Kum"`, contradicting the claim that an exact match always
wins. -/
theorem claim_C5_counterexample :
    (updateNames plainDts
        [⟨"t", [[], [Cell.null, Cell.null, Cell.null, Cell.null, Cell.null, Cell.str ("Clara Cheung")]]⟩]
        [[Cell.str ("Clara Cheung Wing Kum")], [Cell.str ("Clara Cheung")]]).map (fun sh => sh.data) =
      [[[], [Cell.null, Cell.null, Cell.null, Cell.null, Cell.null, Cell.str ("Clara Cheung Wing Kum")]]] ∧
    (staffNames plainDts [[Cell.str ("Clara Cheung Wing Kum")], [Cell.str ("Clara Cheung")]]).find?
      (fun sn => jsToLower sn = jsToLower (cleanedName plainDts (Cell.str ("Clara Cheung")))) =
      some ("Clara Cheung") ∧
    Cell.str ("Clara Cheung Wing Kum") ≠ Cell.str ("Clara Cheung") := by
  exact ⟨by decide, by decide, by decide⟩

/-- **C5** (corrected).  Amended claim: for every cleaned roster name that is
a case-insensitive exact match of some staff entry **and is not an alias
trigger whose alias target occurs in the staff list**, the cell is rewritten
to the first exact match — even when an earlier staff name contains the
cleaned name as a substring (no hypothesis about substring matches is
needed). -/
theorem claim_C5_theorem (dts : JsDate → String) (sheets : List RosterSheet)
    (staff : List (List Cell)) (i r : Nat) (sh : RosterSheet) (row : List Cell)
    (hi : sheets[i]? = some sh) (hr : 0 < r) (hrow : sh.data[r]? = some row)
    (hnn : getCell row 5 ≠ Cell.null)
    (hne : cleanedName dts (getCell row 5) ≠ "")
    (ha1 : ¬(jsToLower (cleanedName dts (getCell row 5)) = "clara ckm" ∧
      ((staffNames dts staff).find? (fun sn => containsSub (jsToLower sn) ("clara cheung ka man"))).isSome = true))
    (ha2 : ¬(jsToLower (cleanedName dts (getCell row 5)) = "clara cheung" ∧
      ((staffNames dts staff).find? (fun sn => containsSub (jsToLower sn) ("clara cheung wing kum"))).isSome = true))
    (e : String)
    (hex : (staffNames dts staff).find?
      (fun sn => jsToLower sn = jsToLower (cleanedName dts (getCell row 5))) = some e) :
    ∃ sh', (updateNames dts sheets staff)[i]? = some sh' ∧
      sh'.data[r]? = some (setIdx row 5 (Cell.str e)) := by
  obtain ⟨sh', hsh', hdata⟩ := updateNames_row dts sheets staff i r sh row hi hr hrow
  refine ⟨sh', hsh', ?_⟩
  rw [hdata]
  have ha1' : (if jsToLower (cleanedName dts (getCell row 5)) = "clara ckm" then
      (staffNames dts staff).find? (fun sn => containsSub (jsToLower sn) ("clara cheung ka man"))
      else none) = none := by
    by_cases ht : jsToLower (cleanedName dts (getCell row 5)) = "clara ckm"
    · rw [if_pos ht]
      cases hf : (staffNames dts staff).find?
          (fun sn => containsSub (jsToLower sn) ("clara cheung ka man")) with
      | none => rfl
      | some v => exact absurd ⟨ht, by rw [hf]; rfl⟩ ha1
    · rw [if_neg ht]
  have ha2' : (if jsToLower (cleanedName dts (getCell row 5)) = "clara cheung" then
      (staffNames dts staff).find? (fun sn => containsSub (jsToLower sn) ("clara cheung wing kum"))
      else none) = none := by
    by_cases ht : jsToLower (cleanedName dts (getCell row 5)) = "clara cheung"
    · rw [if_pos ht]
      cases hf : (staffNames dts staff).find?
          (fun sn => containsSub (jsToLower sn) ("clara cheung wing kum")) with
      | none => rfl
      | some v => exact absurd ⟨ht, by rw [hf]; rfl⟩ ha2
    · rw [if_neg ht]
  rw [resolveRow_after_alias dts (staffNames dts staff) row hnn hne ha1' ha2', hex]

/-- Witness for C5's amended theorem: the exact match `"bob"` wins although
the earlier entry `"Bobby"` contains the cleaned name as a substring. -/
theorem claim_C5_witness :
    ∃ sh', (updateNames plainDts
        [⟨"t", [[], [Cell.null, Cell.null, Cell.null, Cell.null, Cell.null, Cell.str ("Bob (night)")]]⟩]
        [[Cell.str ("Bobby")], [Cell.str ("bob")]])[0]? = some sh' ∧
      sh'.data[1]? = some (setIdx
        [Cell.null, Cell.null, Cell.null, Cell.null, Cell.null, Cell.str ("Bob (night)")] 5
        (Cell.str ("bob"))) :=
  claim_C5_theorem plainDts
    [⟨"t", [[], [Cell.null, Cell.null, Cell.null, Cell.null, Cell.null, Cell.str ("Bob (night)")]]⟩]
    [[Cell.str ("Bobby")], [Cell.str ("bob")]] 0 1
    (⟨"t", [[], [Cell.null, Cell.null, Cell.null, Cell.null, Cell.null, Cell.str ("Bob (night)")]]⟩ : RosterSheet)
    ([Cell.null, Cell.null, Cell.null, Cell.null, Cell.null, Cell.str ("Bob (night)")])
    (by decide) (by decide) (by decide) (by decide) (by decide) (by decide) (by decide)
    ("bob") (by decide)

/-! ## C6: the "clara ckm" alias -/

/-- **C6** (confirmed).  A data-row name cell whose cleaned value is
case-insensitively `"clara ckm"` is rewritten to the first staff name
containing `"clara cheung ka man"`; if no staff entry contains that
substring, the alias is skipped and the generic exact-then-substring rules
decide the cell. -/
theorem claim_C6_theorem (dts : JsDate → String) (sheets : List RosterSheet)
    (staff : List (List Cell)) (i r : Nat) (sh : RosterSheet) (row : List Cell)
    (hi : sheets[i]? = some sh) (hr : 0 < r) (hrow : sh.data[r]? = some row)
    (hnn : getCell row 5 ≠ Cell.null)
    (htrig : jsToLower (cleanedName dts (getCell row 5)) = "clara ckm") :
    (∀ tgt, (staffNames dts staff).find?
        (fun sn => containsSub (jsToLower sn) ("clara cheung ka man")) = some tgt →
      ∃ sh', (updateNames dts sheets staff)[i]? = some sh' ∧
        sh'.data[r]? = some (setIdx row 5 (Cell.str tgt))) ∧
    ((staffNames dts staff).find?
        (fun sn => containsSub (jsToLower sn) ("clara cheung ka man")) = none →
      ∃ sh', (updateNames dts sheets staff)[i]? = some sh' ∧
        sh'.data[r]? = some (
          match (staffNames dts staff).find?
              (fun sn => jsToLower sn = jsToLower (cleanedName dts (getCell row 5))) with
          | some e => setIdx row 5 (Cell.str e)
          | none =>
            match (staffNames dts staff).find?
                (fun sn => containsSub (jsToLower sn) (jsToLower (cleanedName dts (getCell row 5)))) with
            | some p => setIdx row 5 (Cell.str p)
            | none => row)) := by
  have hne : cleanedName dts (getCell row 5) ≠ "" := by
    intro heq
    rw [heq] at htrig
    exact absurd htrig (by decide)
  constructor
  · intro tgt hfind
    obtain ⟨sh', hsh', hdata⟩ := updateNames_row dts sheets staff i r sh row hi hr hrow
    refine ⟨sh', hsh', ?_⟩
    rw [hdata, resolveRow_alias1 dts (staffNames dts staff) row hnn htrig tgt hfind]
  · intro hnone
    obtain ⟨sh', hsh', hdata⟩ := updateNames_row dts sheets staff i r sh row hi hr hrow
    refine ⟨sh', hsh', ?_⟩
    have ha1' : (if jsToLower (cleanedName dts (getCell row 5)) = "clara ckm" then
        (staffNames dts staff).find? (fun sn => containsSub (jsToLower sn) ("clara cheung ka man"))
        else none) = none := by
      rw [if_pos htrig, hnone]
    have ha2' : (if jsToLower (cleanedName dts (getCell row 5)) = "clara cheung" then
        (staffNames dts staff).find? (fun sn => containsSub (jsToLower sn) ("clara cheung wing kum"))
        else none) = none := by
      rw [if_neg]
      rw [htrig]
      decide
    rw [hdata, resolveRow_after_alias dts (staffNames dts staff) row hnn hne ha1' ha2']

/-- Witness for C6: `"Clara CKM"` resolves to the staff entry containing
`"Clara Cheung Ka Man"`. -/
theorem claim_C6_witness :
    ∃ sh', (updateNames plainDts
        [⟨"t", [[], [Cell.null, Cell.null, Cell.null, Cell.null, Cell.null, Cell.str ("Clara CKM")]]⟩]
        [[Cell.str (" Clara Cheung Ka Man (RN) ")]])[0]? = some sh' ∧
      sh'.data[1]? = some (setIdx
        [Cell.null, Cell.null, Cell.null, Cell.null, Cell.null, Cell.str ("Clara CKM")] 5
        (Cell.str ("Clara Cheung Ka Man (RN)"))) :=
  (claim_C6_theorem plainDts
      [⟨"t", [[], [Cell.null, Cell.null, Cell.null, Cell.null, Cell.null, Cell.str ("Clara CKM")]]⟩]
      [[Cell.str (" Clara Cheung Ka Man (RN) ")]] 0 1
      (⟨"t", [[], [Cell.null, Cell.null, Cell.null, Cell.null, Cell.null, Cell.str ("Clara CKM")]]⟩ : RosterSheet)
      ([Cell.null, Cell.null, Cell.null, Cell.null, Cell.null, Cell.str ("Clara CKM")])
      (by decide) (by decide) (by decide) (by decide) (by decide)).1
    ("Clara Cheung Ka Man (RN)") (by decide)

/-! ## C1: `parseYMD` -/

theorem normDayGo_base (y : Int) (m : Nat) (d : Nat) (fuel : Nat) (hfuel : 0 < fuel)
    (hd : d ≤ daysInMonth y m) : normDayGo y m d fuel = ⟨y, m, d⟩ := by
  cases fuel with
  | zero => omega
  | succ f => simp [normDayGo, hd]

theorem normDayGo_year_bounds (y : Int) (m : Nat) (d : Nat) :
    ∀ fuel : Nat, y ≤ (normDayGo y m d fuel).year ∧
      (normDayGo y m d fuel).year ≤ y + fuel := by
  intro fuel
  induction fuel generalizing y m d with
  | zero => simp [normDayGo]
  | succ fuel ih =>
    by_cases hd : d ≤ daysInMonth y m
    · simp [normDayGo, hd]
      omega
    · simp only [normDayGo, if_neg hd]
      have hrec := ih (if m = 12 then y + 1 else y) (if m = 12 then 1 else m + 1)
        (d - daysInMonth y m)
      by_cases hm12 : m = 12 <;> simp only [hm12, if_pos, if_neg, ite_true, ite_false] at hrec ⊢ <;> omega

theorem borrowDayGo_year_bounds (y : Int) (m : Nat) (d : Int) :
    ∀ fuel : Nat, y - fuel ≤ (borrowDayGo y m d fuel).year ∧
      (borrowDayGo y m d fuel).year ≤ y := by
  intro fuel
  induction fuel generalizing y m d with
  | zero => simp [borrowDayGo]
  | succ fuel ih =>
    simp only [borrowDayGo]
    have hYb : y - 1 ≤ (if m = 1 then y - 1 else y) ∧ (if m = 1 then y - 1 else y) ≤ y := by
      by_cases hm1 : m = 1 <;> simp [hm1]
    by_cases hd' : 0 < d +
      (daysInMonth (if m = 1 then y - 1 else y) (if m = 1 then 12 else m - 1) : Int)
    · rw [if_pos hd']
      dsimp only
      omega
    · rw [if_neg hd']
      have hrec := ih (if m = 1 then y - 1 else y) (if m = 1 then 12 else m - 1)
        (d + daysInMonth (if m = 1 then y - 1 else y) (if m = 1 then 12 else m - 1))
      omega

theorem jsMakeDate_year_bounds (y : Int) (m : Nat) (d : Int) :
    y - (d.natAbs + 1 : Nat) ≤ (jsMakeDate y m d).year ∧
      (jsMakeDate y m d).year ≤ y + d.toNat := by
  unfold jsMakeDate
  split
  · have h := normDayGo_year_bounds y m d.toNat d.toNat
    omega
  · have h := borrowDayGo_year_bounds y m d (d.natAbs + 1)
    omega

theorem jsNewDate_inRange (y m d : Nat) (hy1 : 100 ≤ y) (hy2 : y ≤ 9999)
    (hm : m ≤ 9999) (hd : d ≤ 9999) :
    jsDateInRange (jsNewDate (y : Int) ((m : Int) - 1) (d : Int)) = true := by
  simp only [jsNewDate]
  have hadj : ¬((0 ≤ (y : Int) && (y : Int) ≤ 99) = true) := by
    simp only [Bool.and_eq_true, decide_eq_true_eq, not_and]
    intro _
    omega
  rw [if_neg hadj]
  have hident : 12 * (((m : Int) - 1).ediv 12) + ((m : Int) - 1).emod 12 = (m : Int) - 1 :=
    Int.ediv_add_emod _ 12
  have hmod1 : 0 ≤ ((m : Int) - 1).emod 12 := Int.emod_nonneg _ (by norm_num)
  have hmod2 : ((m : Int) - 1).emod 12 < 12 := Int.emod_lt_of_pos _ (by norm_num)
  have hq1 : -1 ≤ ((m : Int) - 1).ediv 12 := by omega
  have hq2 : ((m : Int) - 1).ediv 12 ≤ 833 := by omega
  have hb := jsMakeDate_year_bounds ((y : Int) + ((m : Int) - 1).ediv 12)
    ((((m : Int) - 1).emod 12).toNat + 1) (d : Int)
  have hdn : ((d : Int)).toNat = d := Int.toNat_natCast d
  have hda : ((d : Int)).natAbs = d := Int.natAbs_ofNat d
  simp only [jsDateInRange, Bool.and_eq_true, decide_eq_true_eq]
  omega

theorem jsNewDate_valid (y m d : Nat) (hy : 100 ≤ y) (hm1 : 1 ≤ m) (hm2 : m ≤ 12)
    (hd1 : 1 ≤ d) (hd2 : d ≤ daysInMonth (y : Int) m) :
    jsNewDate (y : Int) ((m : Int) - 1) (d : Int) = ⟨(y : Int), m, d⟩ := by
  simp only [jsNewDate]
  have hadj : ¬((0 ≤ (y : Int) && (y : Int) ≤ 99) = true) := by
    simp only [Bool.and_eq_true, decide_eq_true_eq, not_and]
    intro _
    omega
  rw [if_neg hadj]
  have hdiv : ((m : Int) - 1).ediv 12 = 0 := Int.ediv_eq_zero_of_lt (by omega) (by omega)
  have hmod : ((m : Int) - 1).emod 12 = (m : Int) - 1 := Int.emod_eq_of_lt (by omega) (by omega)
  rw [hdiv, hmod]
  have hmn : (((m : Int) - 1).toNat + 1) = m := by omega
  have hy0 : (y : Int) + 0 = (y : Int) := by omega
  rw [hmn, hy0]
  simp only [jsMakeDate]
  rw [if_pos (by exact_mod_cast hd1)]
  have hdn : ((d : Int)).toNat = d := Int.toNat_natCast d
  rw [hdn]
  exact normDayGo_base (y : Int) m d d (by omega) hd2

/-- **C1** (corrected: counterexample).  `"2023/02/29"` splits into 3 numeric
components that do not form a real calendar date; the claim says `parseYMD`
returns "no date", but JavaScript `new Date(2023, 1, 29)` rolls the fields
over and the function returns 2023-03-01. -/
theorem claim_C1_counterexample :
    parseYMD noNative (Cell.str ("2023/02/29")) = some ⟨2023, 3, 1⟩ ∧
    parseYMD noNative (Cell.str ("2023/02/29")) ≠ none := by
  exact ⟨by decide, by decide⟩

/-- **C1** (corrected).  Amended claim: for every date string splitting on
`/` or `-` into exactly 3 numeric components whose year numeral denotes 100
to 9999 and whose month and day numerals denote at most 9999 — dates far
inside the JavaScript `Date` range — `parseYMD` returns a date (never "no
date"); when the components form a real calendar date the returned (year,
month, day) equals the string's components exactly, and components that do
not form a real date are normalised by field overflow (e.g. `"2023/02/29"`
becomes 2023-03-01) instead of yielding "no date".  Components outside the
`Date` range make the constructed date Invalid and fall through to the
native parser, which may fail. -/
theorem claim_C1_theorem (np : String → Option JsDate) (s p1 p2 p3 : String) (y m d : Nat)
    (hsplit : jsSplit (jsTrim s) isDateSep = [p1, p2, p3])
    (h1 : jsParseInt p1 = some (y : Int))
    (h2 : jsParseInt p2 = some (m : Int))
    (h3 : jsParseInt p3 = some (d : Int))
    (hy1 : 100 ≤ y) (hy2 : y ≤ 9999) (hm4 : m ≤ 9999) (hd4 : d ≤ 9999) :
    (∃ dt, parseYMD np (Cell.str s) = some dt) ∧
    (1 ≤ m → m ≤ 12 → 1 ≤ d → d ≤ daysInMonth (y : Int) m →
      parseYMD np (Cell.str s) = some ⟨(y : Int), m, d⟩) := by
  have hs : s ≠ "" := by
    intro heq
    rw [heq] at hsplit
    have hcomp : jsSplit (jsTrim ("")) isDateSep = [""] := by decide
    rw [hcomp] at hsplit
    simp at hsplit
  have hrange := jsNewDate_inRange y m d hy1 hy2 hm4 hd4
  have hrun : parseYMD np (Cell.str s) = some (jsNewDate (y : Int) ((m : Int) - 1) (d : Int)) := by
    simp only [parseYMD, if_neg hs, parseYMDStr]
    rw [hsplit]
    simp only [h1, h2, h3]
    rw [if_pos hrange]
  refine ⟨⟨_, hrun⟩, ?_⟩
  intro hm1 hm2 hd1 hd2
  rw [hrun, jsNewDate_valid y m d hy1 hm1 hm2 hd1 hd2]

/-- Witness for C1: the leap-year date `"2024/02/29"` parses to exactly its
components. -/
theorem claim_C1_witness :
    parseYMD noNative (Cell.str ("2024/02/29")) = some ⟨2024, 2, 29⟩ :=
  (claim_C1_theorem noNative ("2024/02/29") ("2024") ("02") ("29") 2024 2 29
      (by decide) (by decide) (by decide) (by decide)
      (by decide) (by decide) (by decide) (by decide)).2
    (by decide) (by decide) (by decide) (by decide)

/-! ## C3: majority month.  Helper notions: first-occurrence index and the
insertion-ordered key list of the `monthCounts` object. -/

/-- Index of the first occurrence of `a` in `l` (`l.length` if absent). -/
def fIdx (a : String) : List String → Nat
  | [] => 0
  | b :: t => if b = a then 0 else fIdx a t + 1

/-- The keys of the `monthCounts` object in insertion order: first
occurrences, in order. -/
def seenKeys (l : List String) : List String :=
  l.foldl (fun acc k => if k ∈ acc then acc else acc ++ [k]) []

theorem fIdx_lt_length_of_mem {a : String} : ∀ {l : List String}, a ∈ l → fIdx a l < l.length := by
  intro l
  induction l with
  | nil => intro h; cases h
  | cons b t ih =>
    intro h
    by_cases hb : b = a
    · simp [fIdx, hb]
    · have hat : a ∈ t := by
        rcases List.mem_cons.mp h with h1 | h1
        · exact absurd h1.symm hb
        · exact h1
      simpa [fIdx, hb] using Nat.succ_lt_succ (ih hat)

theorem get_fIdx {a : String} : ∀ {l : List String} (hlt : fIdx a l < l.length),
    l.get ⟨fIdx a l, hlt⟩ = a := by
  intro l
  induction l with
  | nil => intro h; simp [fIdx] at h
  | cons b t ih =>
    intro hlt
    by_cases hb : b = a
    · simp [fIdx, hb]
    · simp only [fIdx, if_neg hb] at hlt ⊢
      have hlt' : fIdx a t < t.length := by
        simp only [List.length_cons] at hlt
        omega
      rw [List.get_cons_succ]
      exact ih hlt'

theorem get_lt_fIdx_ne {a : String} : ∀ {l : List String} (j : Nat) (hj : j < l.length),
    j < fIdx a l → l.get ⟨j, hj⟩ ≠ a := by
  intro l
  induction l with
  | nil => intro j hj _; simp at hj
  | cons b t ih =>
    intro j hj hlt
    by_cases hb : b = a
    · rw [fIdx, if_pos hb] at hlt; omega
    · rw [fIdx, if_neg hb] at hlt
      cases j with
      | zero => simpa using hb
      | succ j' =>
        simp only [List.length_cons] at hj
        simpa using ih j' (by omega) (by omega)

theorem fIdx_le_of_get {a : String} {l : List String} (j : Nat) (hj : j < l.length)
    (hget : l.get ⟨j, hj⟩ = a) : fIdx a l ≤ j := by
  by_contra hc
  exact get_lt_fIdx_ne j hj (by omega) hget

theorem fIdx_append_of_mem {a : String} : ∀ {l₁ : List String} (l₂ : List String),
    a ∈ l₁ → fIdx a (l₁ ++ l₂) = fIdx a l₁ := by
  intro l₁
  induction l₁ with
  | nil => intro l₂ h; cases h
  | cons b t ih =>
    intro l₂ h
    by_cases hb : b = a
    · simp [fIdx, hb]
    · have hat : a ∈ t := by
        rcases List.mem_cons.mp h with h1 | h1
        · exact absurd h1.symm hb
        · exact h1
      simp [fIdx, hb, ih l₂ hat]

theorem fIdx_snoc_self {a : String} : ∀ {l : List String}, a ∉ l →
    fIdx a (l ++ [a]) = l.length := by
  intro l
  induction l with
  | nil => intro _; simp [fIdx]
  | cons b t ih =>
    intro h
    have hb : ¬(b = a) := fun hh => h (by simp [hh])
    have hat : a ∉ t := fun hh => h (List.mem_cons_of_mem b hh)
    simp [fIdx, hb, ih hat]

theorem mem_foldl_insert : ∀ (l acc : List String) (a : String),
    (a ∈ l.foldl (fun acc k => if k ∈ acc then acc else acc ++ [k]) acc ↔ a ∈ acc ∨ a ∈ l) := by
  intro l
  induction l with
  | nil => intro acc a; simp
  | cons k t ih =>
    intro acc a
    rw [List.foldl_cons, ih]
    have hstep : (a ∈ if k ∈ acc then acc else acc ++ [k]) ↔ a ∈ acc ∨ a = k := by
      by_cases hk : k ∈ acc
      · rw [if_pos hk]
        constructor
        · exact Or.inl
        · rintro (h | rfl)
          · exact h
          · exact hk
      · rw [if_neg hk]
        simp [List.mem_append]
    rw [hstep]
    simp [List.mem_cons]
    tauto

theorem nodup_foldl_insert : ∀ (l acc : List String), acc.Nodup →
    (l.foldl (fun acc k => if k ∈ acc then acc else acc ++ [k]) acc).Nodup := by
  intro l
  induction l with
  | nil => intro acc h; exact h
  | cons k t ih =>
    intro acc hacc
    rw [List.foldl_cons]
    apply ih
    by_cases hk : k ∈ acc
    · rwa [if_pos hk]
    · rw [if_neg hk]
      simp [List.nodup_append, hacc, hk]

theorem seen_mem (l : List String) (a : String) : a ∈ seenKeys l ↔ a ∈ l := by
  unfold seenKeys
  rw [mem_foldl_insert]
  simp

theorem seen_nodup (l : List String) : (seenKeys l).Nodup :=
  nodup_foldl_insert l [] List.nodup_nil

theorem seen_snoc (l : List String) (k : String) :
    seenKeys (l ++ [k]) = if k ∈ seenKeys l then seenKeys l else seenKeys l ++ [k] := by
  unfold seenKeys
  rw [List.foldl_append]
  rfl

theorem seen_sorted (keys : List String) :
    (seenKeys keys).Pairwise (fun a b => fIdx a keys < fIdx b keys) := by
  induction keys using List.reverseRecOn with
  | nil => simp [seenKeys]
  | append_singleton l k ih =>
    rw [seen_snoc]
    by_cases hk : k ∈ seenKeys l
    · rw [if_pos hk]
      refine ih.imp_of_mem ?_
      intro a b ha hb hab
      rw [fIdx_append_of_mem [k] ((seen_mem l a).mp ha),
        fIdx_append_of_mem [k] ((seen_mem l b).mp hb)]
      exact hab
    · rw [if_neg hk]
      rw [List.pairwise_append]
      refine ⟨ih.imp_of_mem ?_, List.pairwise_singleton _ _, ?_⟩
      · intro a b ha hb hab
        rw [fIdx_append_of_mem [k] ((seen_mem l a).mp ha),
          fIdx_append_of_mem [k] ((seen_mem l b).mp hb)]
        exact hab
      · intro a ha b hb
        rw [List.mem_singleton] at hb
        subst hb
        have hal : a ∈ l := (seen_mem l a).mp ha
        have hknl : b ∉ l := fun hh => hk ((seen_mem l b).mpr hh)
        rw [fIdx_append_of_mem [b] hal, fIdx_snoc_self hknl]
        exact fIdx_lt_length_of_mem hal

theorem bump_not_mem : ∀ (acc : List (String × Nat)) (k : String),
    k ∉ acc.map Prod.fst → bump acc k = acc ++ [(k, 1)] := by
  intro acc
  induction acc with
  | nil => intro k _; rfl
  | cons e t ih =>
    intro k hk
    simp only [List.map_cons, List.mem_cons, not_or] at hk
    obtain ⟨h1, h2⟩ := hk
    cases e with
    | mk k' c =>
      simp only [bump, if_neg (fun hh : k' = k => h1 hh.symm)]
      rw [ih k h2, List.cons_append]

theorem bump_map_mem (k : String) (c : String → Nat) :
    ∀ (S : List String), S.Nodup → k ∈ S →
      bump (S.map (fun x => (x, c x))) k =
        S.map (fun x => (x, if x = k then c x + 1 else c x)) := by
  intro S
  induction S with
  | nil => intro _ h; cases h
  | cons a t ih =>
    intro hnd hmem
    simp only [List.map_cons, bump]
    by_cases ha : a = k
    · rw [if_pos ha]
      have hant : a ∉ t := (List.nodup_cons.mp hnd).1
      rw [if_pos ha]
      congr 1
      apply List.map_congr_left
      intro x hx
      have hxk : ¬(x = k) := fun hh => hant (by rw [ha, ← hh]; exact hx)
      rw [if_neg hxk]
    · rw [if_neg ha, if_neg ha]
      congr 1
      refine ih (List.nodup_cons.mp hnd).2 ?_
      rcases List.mem_cons.mp hmem with h | h
      · exact absurd h.symm ha
      · exact h

theorem count_append_singleton (l : List String) (k x : String) :
    (l ++ [k]).count x = l.count x + if x = k then 1 else 0 := by
  rw [List.count_append]
  congr 1
  rw [List.count_singleton]
  by_cases h : x = k
  · simp [h]
  · simp only [if_neg h]
    rw [if_neg]
    simp only [beq_iff_eq]
    exact fun hh => h hh.symm

theorem bump_seen_step (prev : List String) (k : String) :
    bump ((seenKeys prev).map (fun x => (x, prev.count x))) k =
      (seenKeys (prev ++ [k])).map (fun x => (x, (prev ++ [k]).count x)) := by
  by_cases hk : k ∈ seenKeys prev
  · rw [seen_snoc, if_pos hk]
    rw [bump_map_mem k (fun x => prev.count x) (seenKeys prev) (seen_nodup prev) hk]
    apply List.map_congr_left
    intro x _
    rw [count_append_singleton]
    by_cases hxk : x = k <;> simp [hxk]
  · rw [seen_snoc, if_neg hk]
    rw [bump_not_mem _ k (by simpa [List.map_map, Function.comp] using hk)]
    rw [List.map_append]
    congr 1
    · apply List.map_congr_left
      intro x hx
      have hxk : ¬(x = k) := fun hh => hk (hh ▸ hx)
      rw [count_append_singleton]
      simp [hxk]
    · have hknp : k ∉ prev := fun hh => hk ((seen_mem prev k).mpr hh)
      simp [count_append_singleton, List.count_eq_zero.mpr hknp]

theorem tally_go : ∀ (rest prev : List String),
    List.foldl bump ((seenKeys prev).map (fun x => (x, prev.count x))) rest =
      (seenKeys (prev ++ rest)).map (fun x => (x, (prev ++ rest).count x)) := by
  intro rest
  induction rest with
  | nil => intro prev; simp
  | cons k t ih =>
    intro prev
    rw [List.foldl_cons, bump_seen_step prev k, ih (prev ++ [k])]
    simp [List.append_assoc]

theorem tally_eq (keys : List String) :
    tallyKeys keys = (seenKeys keys).map (fun x => (x, keys.count x)) := by
  have h := tally_go keys []
  simpa [seenKeys, tallyKeys] using h

theorem pickMaxAux_spec : ∀ (entries : List (String × Nat)) (mx : Nat) (mj : Option String),
    ((pickMaxAux entries mx mj).2 = mj ∧ ∀ e ∈ entries, e.2 ≤ mx) ∨
    (∃ i, ∃ h : i < entries.length,
      (pickMaxAux entries mx mj).2 = some (entries.get ⟨i, h⟩).1 ∧
      mx < (entries.get ⟨i, h⟩).2 ∧
      (∀ e ∈ entries, e.2 ≤ (entries.get ⟨i, h⟩).2) ∧
      (∀ j (hj : j < entries.length), j < i →
        (entries.get ⟨j, hj⟩).2 < (entries.get ⟨i, h⟩).2)) := by
  intro entries
  induction entries with
  | nil =>
    intro mx mj
    left
    exact ⟨rfl, by simp⟩
  | cons e t ih =>
    intro mx mj
    by_cases hme : mx < e.2
    · rcases ih e.2 (some e.1) with ⟨hres, hall⟩ | ⟨i, hi, hres, hlt, hall, hearl⟩
      · right
        refine ⟨0, by simp, ?_, ?_, ?_, ?_⟩
        · simpa only [pickMaxAux, if_pos hme] using hres
        · exact hme
        · intro x hx
          rcases List.mem_cons.mp hx with rfl | hx
          · exact Nat.le_refl _
          · exact hall x hx
        · intro j hj hj0
          omega
      · right
        refine ⟨i + 1, by simpa using Nat.succ_lt_succ hi, ?_, ?_, ?_, ?_⟩
        · simpa only [pickMaxAux, if_pos hme, List.get_cons_succ] using hres
        · simpa only [List.get_cons_succ] using Nat.lt_trans hme hlt
        · intro x hx
          rcases List.mem_cons.mp hx with rfl | hx
          · simpa only [List.get_cons_succ] using Nat.le_of_lt hlt
          · simpa only [List.get_cons_succ] using hall x hx
        · intro j hj hji
          cases j with
          | zero => simpa only [List.get_cons_succ, List.get_cons_zero] using hlt
          | succ j' =>
            simpa only [List.get_cons_succ] using
              hearl j' (by simpa using Nat.lt_of_succ_lt_succ hj) (by omega)
    · rcases ih mx mj with ⟨hres, hall⟩ | ⟨i, hi, hres, hlt, hall, hearl⟩
      · left
        refine ⟨by simpa only [pickMaxAux, if_neg hme] using hres, ?_⟩
        intro x hx
        rcases List.mem_cons.mp hx with rfl | hx
        · exact Nat.le_of_not_lt hme
        · exact hall x hx
      · right
        refine ⟨i + 1, by simpa using Nat.succ_lt_succ hi, ?_, ?_, ?_, ?_⟩
        · simpa only [pickMaxAux, if_neg hme, List.get_cons_succ] using hres
        · simpa only [List.get_cons_succ] using hlt
        · intro x hx
          rcases List.mem_cons.mp hx with rfl | hx
          · simp only [List.get_cons_succ]
            exact Nat.le_trans (Nat.le_of_not_lt hme) (Nat.le_of_lt hlt)
          · simpa only [List.get_cons_succ] using hall x hx
        · intro j hj hji
          cases j with
          | zero =>
            simp only [List.get_cons_succ, List.get_cons_zero]
            exact Nat.lt_of_le_of_lt (Nat.le_of_not_lt hme) hlt
          | succ j' =>
            simpa only [List.get_cons_succ] using
              hearl j' (by simpa using Nat.lt_of_succ_lt_succ hj) (by omega)

theorem findMajority_eq_pick (np : String → Option JsDate) (sheets : List RosterSheet) :
    findMajorityMonth np sheets =
      (pickMaxAux ((seenKeys (monthKeys np sheets)).map
        (fun x => (x, (monthKeys np sheets).count x))) 0 none).2 := by
  unfold findMajorityMonth
  rw [tally_eq]

/-- **C3** (confirmed).  `findMajorityMonth` returns "no majority" (`none`)
exactly when no data row (column index 2, header rows skipped) yields a
parseable date; otherwise it returns a month key `k` occurring at some
position `i` of the scan such that every key strictly earlier than `i` has a
strictly smaller count and no key anywhere has a larger count — i.e. the
maximum-count key, ties broken in favour of the first key to reach the
maximum during iteration. -/
theorem claim_C3_theorem (np : String → Option JsDate) (sheets : List RosterSheet) :
    (findMajorityMonth np sheets = none ↔ monthKeys np sheets = []) ∧
    (∀ k, findMajorityMonth np sheets = some k →
      ∃ i, ∃ h : i < (monthKeys np sheets).length,
        (monthKeys np sheets).get ⟨i, h⟩ = k ∧
        (∀ k' ∈ monthKeys np sheets,
          (monthKeys np sheets).count k' ≤ (monthKeys np sheets).count k) ∧
        (∀ j (hj : j < (monthKeys np sheets).length), j < i →
          (monthKeys np sheets).count ((monthKeys np sheets).get ⟨j, hj⟩) <
            (monthKeys np sheets).count k)) := by
  constructor
  · constructor
    · intro hres
      by_cases hne : monthKeys np sheets = []
      · exact hne
      · exfalso
        obtain ⟨k₀, hk₀⟩ := List.exists_mem_of_ne_nil _ hne
        rcases pickMaxAux_spec ((seenKeys (monthKeys np sheets)).map
            (fun x => (x, (monthKeys np sheets).count x))) 0 none with
          ⟨hr, hall⟩ | ⟨i, hi, hr, _, _, _⟩
        · have hk₀S : k₀ ∈ seenKeys (monthKeys np sheets) :=
            (seen_mem _ k₀).mpr hk₀
          have hmem : (k₀, (monthKeys np sheets).count k₀) ∈
              (seenKeys (monthKeys np sheets)).map
                (fun x => (x, (monthKeys np sheets).count x)) :=
            List.mem_map.mpr ⟨k₀, hk₀S, rfl⟩
          have hc := hall _ hmem
          have hpos : 0 < (monthKeys np sheets).count k₀ := List.count_pos_iff.mpr hk₀
          simp only at hc
          omega
        · rw [findMajority_eq_pick, hr] at hres
          simp at hres
    · intro hkeys
      rw [findMajority_eq_pick, hkeys]
      rfl
  · intro k hk
    rw [findMajority_eq_pick] at hk
    rcases pickMaxAux_spec ((seenKeys (monthKeys np sheets)).map
        (fun x => (x, (monthKeys np sheets).count x))) 0 none with
      ⟨hr, _⟩ | ⟨ie, hie, hr, hlt0, hall, hearl⟩
    · rw [hr] at hk
      exact Option.noConfusion hk
    · rw [hr] at hk
      injection hk with hk
      have hie' : ie < (seenKeys (monthKeys np sheets)).length := by simpa using hie
      have hget : ((seenKeys (monthKeys np sheets)).map
          (fun x => (x, (monthKeys np sheets).count x))).get ⟨ie, hie⟩ =
          ((seenKeys (monthKeys np sheets)).get ⟨ie, hie'⟩,
            (monthKeys np sheets).count ((seenKeys (monthKeys np sheets)).get ⟨ie, hie'⟩)) := by
        simp [List.get_eq_getElem, List.getElem_map]
      rw [hget] at hk hlt0 hall hearl
      simp only at hk
      subst hk
      have hkS : (seenKeys (monthKeys np sheets)).get ⟨ie, hie'⟩ ∈
          seenKeys (monthKeys np sheets) := List.get_mem _ _ _
      have hkmem : (seenKeys (monthKeys np sheets)).get ⟨ie, hie'⟩ ∈ monthKeys np sheets :=
        (seen_mem _ _).mp hkS
      refine ⟨fIdx ((seenKeys (monthKeys np sheets)).get ⟨ie, hie'⟩) (monthKeys np sheets),
        fIdx_lt_length_of_mem hkmem, get_fIdx _, ?_, ?_⟩
      · intro k' hk'
        have hk'S : k' ∈ seenKeys (monthKeys np sheets) := (seen_mem _ k').mpr hk'
        have hmem : (k', (monthKeys np sheets).count k') ∈
            (seenKeys (monthKeys np sheets)).map
              (fun x => (x, (monthKeys np sheets).count x)) :=
          List.mem_map.mpr ⟨k', hk'S, rfl⟩
        simpa using hall _ hmem
      · intro j hj hji
        have hk'mem : (monthKeys np sheets).get ⟨j, hj⟩ ∈ monthKeys np sheets :=
          List.get_mem _ _ _
        have hk'ne : (monthKeys np sheets).get ⟨j, hj⟩ ≠
            (seenKeys (monthKeys np sheets)).get ⟨ie, hie'⟩ :=
          get_lt_fIdx_ne j hj hji
        have hk'S : (monthKeys np sheets).get ⟨j, hj⟩ ∈ seenKeys (monthKeys np sheets) :=
          (seen_mem _ _).mpr hk'mem
        obtain ⟨⟨i', hi'⟩, hget'⟩ := List.get_of_mem hk'S
        have hsorted := seen_sorted (monthKeys np sheets)
        rw [List.pairwise_iff_get] at hsorted
        have hi'lt : i' < ie := by
          rcases Nat.lt_trichotomy i' ie with h | h | h
          · exact h
          · exfalso
            apply hk'ne
            rw [← hget']
            subst h
            rfl
          · exfalso
            have hR := hsorted ⟨ie, hie'⟩ ⟨i', hi'⟩ h
            rw [hget'] at hR
            have h1 : fIdx ((monthKeys np sheets).get ⟨j, hj⟩) (monthKeys np sheets) ≤ j :=
              fIdx_le_of_get j hj rfl
            omega
        have hearl' := hearl i' (by simpa using hi') hi'lt
        have hgetj : ((seenKeys (monthKeys np sheets)).map
            (fun x => (x, (monthKeys np sheets).count x))).get
              ⟨i', by simpa using hi'⟩ =
            ((monthKeys np sheets).get ⟨j, hj⟩,
              (monthKeys np sheets).count ((monthKeys np sheets).get ⟨j, hj⟩)) := by
          simp only [List.get_eq_getElem, List.getElem_map]
          rw [List.get_eq_getElem, List.get_eq_getElem] at hget'
          rw [hget']
        rw [hgetj] at hearl'
        simpa using hearl'


/-- Witness for C3: in a workbook with two March rows and one April row the
majority month is `"2024-03"`, first to reach the maximal count. -/
theorem claim_C3_witness :
    ∃ i, ∃ h : i < (monthKeys noNative [⟨"t", [[], [Cell.null, Cell.null, Cell.str ("2024/03/01")], [Cell.null, Cell.null, Cell.str ("2024/04/02")], [Cell.null, Cell.null, Cell.str ("2024/03/09")]]⟩]).length,
      (monthKeys noNative [⟨"t", [[], [Cell.null, Cell.null, Cell.str ("2024/03/01")], [Cell.null, Cell.null, Cell.str ("2024/04/02")], [Cell.null, Cell.null, Cell.str ("2024/03/09")]]⟩]).get ⟨i, h⟩ = "2024-03" ∧
      (∀ k' ∈ monthKeys noNative [⟨"t", [[], [Cell.null, Cell.null, Cell.str ("2024/03/01")], [Cell.null, Cell.null, Cell.str ("2024/04/02")], [Cell.null, Cell.null, Cell.str ("2024/03/09")]]⟩],
        (monthKeys noNative [⟨"t", [[], [Cell.null, Cell.null, Cell.str ("2024/03/01")], [Cell.null, Cell.null, Cell.str ("2024/04/02")], [Cell.null, Cell.null, Cell.str ("2024/03/09")]]⟩]).count k' ≤ (monthKeys noNative [⟨"t", [[], [Cell.null, Cell.null, Cell.str ("2024/03/01")], [Cell.null, Cell.null, Cell.str ("2024/04/02")], [Cell.null, Cell.null, Cell.str ("2024/03/09")]]⟩]).count ("2024-03")) ∧
      (∀ j (hj : j < (monthKeys noNative [⟨"t", [[], [Cell.null, Cell.null, Cell.str ("2024/03/01")], [Cell.null, Cell.null, Cell.str ("2024/04/02")], [Cell.null, Cell.null, Cell.str ("2024/03/09")]]⟩]).length), j < i →
        (monthKeys noNative [⟨"t", [[], [Cell.null, Cell.null, Cell.str ("2024/03/01")], [Cell.null, Cell.null, Cell.str ("2024/04/02")], [Cell.null, Cell.null, Cell.str ("2024/03/09")]]⟩]).count ((monthKeys noNative [⟨"t", [[], [Cell.null, Cell.null, Cell.str ("2024/03/01")], [Cell.null, Cell.null, Cell.str ("2024/04/02")], [Cell.null, Cell.null, Cell.str ("2024/03/09")]]⟩]).get ⟨j, hj⟩) <
          (monthKeys noNative [⟨"t", [[], [Cell.null, Cell.null, Cell.str ("2024/03/01")], [Cell.null, Cell.null, Cell.str ("2024/04/02")], [Cell.null, Cell.null, Cell.str ("2024/03/09")]]⟩]).count ("2024-03")) :=
  (claim_C3_theorem noNative [⟨"t", [[], [Cell.null, Cell.null, Cell.str ("2024/03/01")], [Cell.null, Cell.null, Cell.str ("2024/04/02")], [Cell.null, Cell.null, Cell.str ("2024/03/09")]]⟩]).2 ("2024-03") (by decide)
